import Mathlib

/-!
Shallow embedding of `menu_generater` (src/menu_genrater/src/App.tsx) and
verification of its specification.  JS strings are modelled as Lean `String`
(lists of characters), JS exact numeric computations on integers as `ℕ`/`ℤ`,
and JS floating-point values appearing in the page-scale routine as exact
rationals together with an explicit non-finite (`NaN`) marker.
-/

namespace MenuGen

/-- Embeds `TAX_RATE = 0.1` (App.tsx line 13) as the exact rational 1/10. -/
def TAX_RATE : ℚ := 1/10

/-- Embeds `PAGE_WIDTH = 794` (App.tsx line 14). -/
def PAGE_WIDTH : ℚ := 794

/-- Embeds `PAGE_HEIGHT = 1123` (App.tsx line 15). -/
def PAGE_HEIGHT : ℚ := 1123

/-- Embeds `DEFAULT_SHADOW_COLOR = '#57e8ff'` (App.tsx line 16). -/
def DEFAULT_SHADOW_COLOR : String := "#57e8ff"

/-- Embeds `MAX_COLOR_HISTORY = 8` (App.tsx line 18). -/
def MAX_COLOR_HISTORY : ℕ := 8

/-- Embeds `sanitizeDigits = (value) => value.replace(/[^\d]/g, '')`
(App.tsx line 36): the regex deletes every character outside `[0-9]`,
keeping exactly the decimal-digit characters in order. -/
def sanitizeDigits (value : String) : String :=
  String.mk (value.data.filter (fun c => c.isDigit))

/-- Embeds the JS `Number(s)` conversion restricted to the digit-only strings
it is applied to in App.tsx line 169 (`Number(sanitizeDigits(item.price))`):
the decimal value of the digit string, with `Number("") = 0`. -/
def jsNumberOfDigits (s : String) : ℕ :=
  s.data.foldl (fun n c => n * 10 + (c.toNat - 48)) 0

/-- Embeds the derived price `Number(sanitizeDigits(item.price)) || 0`
(App.tsx line 169).  On a digit-only string `Number` never yields `NaN`
and yields the falsy `0` exactly on `""`, so `|| 0` is the identity here. -/
def priceValue (price : String) : ℕ :=
  jsNumberOfDigits (sanitizeDigits price)

/-- Embeds `getTaxIncluded = (value) => value > 0 ? Math.round(value * (1 + TAX_RATE)) : 0`
(App.tsx lines 40-41), with the arithmetic exact and JS `Math.round`
(round half towards positive infinity) as Mathlib's `round`. -/
def getTaxIncluded (value : ℕ) : ℤ :=
  if 0 < value then round ((value : ℚ) * (1 + TAX_RATE)) else 0

/-- Embeds the `while (low <= high)` binary-search loop of `useAutoFitText.fit`
(App.tsx lines 65-78).  `h` is the measurement `node.scrollHeight` as a
function of the probed font size (the loop assumes the measurement reflects
the just-assigned size), `H` is `availableHeight`, and
`Math.floor((low + high) / 2)` is `Int.fdiv` (floor division).  The `fuel`
argument only bounds the number of iterations so the loop is structurally
recursive; `fit` below supplies fuel no smaller than the width of the
initial range, which exceeds the iteration count, so the loop always ends
because the bounds cross, never because fuel runs out. -/
def fitLoop (h : ℤ → ℤ) (H : ℤ) : ℕ → ℤ → ℤ → ℤ → ℤ
  | 0, _, _, best => best
  | fuel + 1, low, high, best =>
    if low ≤ high then
      let mid := Int.fdiv (low + high) 2
      if h mid ≤ H then fitLoop h H fuel (mid + 1) high mid
      else fitLoop h H fuel low (mid - 1) best
    else best

/-- Embeds `useAutoFitText.fit` (App.tsx lines 53-80) after the guards: the
binary search starts with `low = min`, `high = max`, `best = min` and the
returned value is applied as the final font size (line 80). -/
def fit (h : ℤ → ℤ) (H mn mx : ℤ) : ℤ :=
  fitLoop h H (mx + 1 - mn).toNat mn mx mn

/-- A JS number as it occurs in `updateScale`: either a finite value
(modelled exactly as a rational) or the non-finite `NaN` produced by
`parseFloat` on an unparseable computed style. -/
inductive JSNum where
  | nan : JSNum
  | num (q : ℚ) : JSNum
deriving DecidableEq

/-- JS `a - b` for a finite `a` (an element's integral `clientWidth` or
`clientHeight`) and a possibly non-finite `b`: `NaN` propagates. -/
def jsSub (a : ℚ) (b : JSNum) : JSNum :=
  match b with
  | JSNum.nan => JSNum.nan
  | JSNum.num q => JSNum.num (a - q)

/-- JS `Math.max(0, x)`: `Math.max` returns `NaN` when an argument is `NaN`. -/
def jsMax0 (x : JSNum) : JSNum :=
  match x with
  | JSNum.nan => JSNum.nan
  | JSNum.num q => JSNum.num (max 0 q)

/-- JS division of a possibly non-finite numerator by a nonzero finite
constant (`PAGE_WIDTH` or `PAGE_HEIGHT`): `NaN` propagates. -/
def jsDivC (x : JSNum) (c : ℚ) : JSNum :=
  match x with
  | JSNum.nan => JSNum.nan
  | JSNum.num q => JSNum.num (q / c)

/-- JS `Math.min` on two arguments: returns `NaN` when either is `NaN`. -/
def jsMin (a b : JSNum) : JSNum :=
  match a, b with
  | JSNum.nan, _ => JSNum.nan
  | _, JSNum.nan => JSNum.nan
  | JSNum.num p, JSNum.num q => JSNum.num (min p q)

/-- Embeds `availableWidth = Math.max(0, stage.clientWidth - paddingX)`
(App.tsx line 266) and its height counterpart (line 267). -/
def availableSize (client : ℚ) (padding : JSNum) : JSNum :=
  jsMax0 (jsSub client padding)

/-- Embeds `nextScale = Math.min(1, widthRatio, heightRatio)` with
`widthRatio = availableWidth / PAGE_WIDTH` and
`heightRatio = availableHeight / PAGE_HEIGHT` (App.tsx lines 268-270). -/
def nextScale (availableWidth availableHeight : JSNum) : JSNum :=
  jsMin (JSNum.num 1)
    (jsMin (jsDivC availableWidth PAGE_WIDTH) (jsDivC availableHeight PAGE_HEIGHT))

/-- Embeds the tail of `updateScale` (App.tsx lines 272-276): the scale that
is stored is `nextScale` when it is a finite number greater than zero, and
`1` otherwise. -/
def updateScaleResult (availableWidth availableHeight : JSNum) : ℚ :=
  match nextScale availableWidth availableHeight with
  | JSNum.nan => 1
  | JSNum.num q => if 0 < q then q else 1

/-- A parsed JSON value, as produced by `JSON.parse` inside
`loadColorHistory` (App.tsx line 144). -/
inductive Json where
  | null : Json
  | bool (b : Bool) : Json
  | num (n : ℚ) : Json
  | str (s : String) : Json
  | arr (elems : List Json) : Json
  | obj (fields : List (String × Json)) : Json

/-- The observable state of `window.localStorage` at the history key, as far
as `loadColorHistory` can distinguish it: the key is absent (or holds the
falsy empty string, App.tsx line 143), holds a string `JSON.parse` throws on
(caught at line 149), or holds a string that parses to a JSON value. -/
inductive StoredState where
  | absent : StoredState
  | unparseable : StoredState
  | parsed (v : Json) : StoredState

/-- The string elements of a JSON array, in order: embeds
`parsed.filter((color) => typeof color === 'string')` (App.tsx line 146),
whose result is the list of those elements that are strings. -/
def jsonStringElems (elems : List Json) : List String :=
  elems.filterMap (fun e =>
    match e with
    | Json.str s => some s
    | _ => none)

/-- Embeds `loadColorHistory` (App.tsx lines 139-153): default on an absent
or empty value, default when `JSON.parse` throws, the string elements when
the parsed value is a nonempty array (`Array.isArray(parsed) && parsed.length`),
and default on every other parsed value. -/
def loadColorHistory : StoredState → List String
  | StoredState.absent => [DEFAULT_SHADOW_COLOR]
  | StoredState.unparseable => [DEFAULT_SHADOW_COLOR]
  | StoredState.parsed v =>
    match v with
    | Json.arr elems =>
      if elems.length ≠ 0 then jsonStringElems elems else [DEFAULT_SHADOW_COLOR]
    | _ => [DEFAULT_SHADOW_COLOR]

/-- Embeds the updater of `commitColorToHistory` (App.tsx lines 184-192):
`[nextColor, ...prev.filter((color) => color !== nextColor)].slice(0, MAX_COLOR_HISTORY)`. -/
def commitColorToHistory (nextColor : String) (prev : List String) : List String :=
  (nextColor :: prev.filter (fun color => color ≠ nextColor)).take MAX_COLOR_HISTORY

/-- The color-history values reachable from an initial list by any sequence
of `commitColorToHistory` updates. -/
inductive ReachableHistory (init : List String) : List String → Prop where
  | refl : ReachableHistory init init
  | commit (c : String) (l : List String) :
      ReachableHistory init l → ReachableHistory init (commitColorToHistory c l)

/-- A UTC instant as exposed by the host's `Date`, split into the numeric
fields that `toISOString` serializes. -/
structure DateUTC where
  year : ℕ
  month : ℕ
  day : ℕ
  hour : ℕ
  minute : ℕ
  second : ℕ
  ms : ℕ

/-- Two-digit zero-padded decimal rendering of a field (exact for values
below 100), as used by the host's `Date.prototype.toISOString`. -/
def pad2 (n : ℕ) : List Char :=
  [Nat.digitChar (n / 10), Nat.digitChar (n % 10)]

/-- Three-digit zero-padded decimal rendering of the millisecond field
(exact for values below 1000). -/
def pad3 (n : ℕ) : List Char :=
  [Nat.digitChar (n / 100), Nat.digitChar (n / 10 % 10), Nat.digitChar (n % 10)]

/-- Four-digit zero-padded decimal rendering of the year field (exact for
values below 10000). -/
def pad4 (n : ℕ) : List Char :=
  [Nat.digitChar (n / 1000), Nat.digitChar (n / 100 % 10),
   Nat.digitChar (n / 10 % 10), Nat.digitChar (n % 10)]

/-- Models the host's `Date.prototype.toISOString` (called at App.tsx
line 332): the UTC fields in fixed-width decimal, in the format
`YYYY-MM-DDTHH:MM:SS.mmmZ`. -/
def toISOStringChars (d : DateUTC) : List Char :=
  pad4 d.year ++ '-' :: pad2 d.month ++ '-' :: pad2 d.day ++
    'T' :: pad2 d.hour ++ ':' :: pad2 d.minute ++ ':' :: pad2 d.second ++
    '.' :: pad3 d.ms ++ ['Z']

/-- Embeds `.replace(/[-:T]/g, "")` (App.tsx line 333): every `-`, `:` and
`T` character is deleted. -/
def stripSeparators (cs : List Char) : List Char :=
  cs.filter (fun c => !(c == '-' || c == ':' || c == 'T'))

/-- Embeds the timestamp of `handleDownload` (App.tsx lines 331-334):
`new Date().toISOString().replace(/[-:T]/g, "").slice(0, 12)`. -/
def exportTimestamp (d : DateUTC) : String :=
  String.mk ((stripSeparators (toISOStringChars d)).take 12)

/-- An element's inline style (`node.style`) as an ordered block of
property/value declarations; `cssText` reads and writes the whole block. -/
def setStyleProp (style : List (String × String)) (prop value : String) :
    List (String × String) :=
  if style.any (fun d => d.1 = prop) then
    style.map (fun d => if d.1 = prop then (prop, value) else d)
  else style ++ [(prop, value)]

/-- Assigning `node.style.cssText = saved` replaces the whole declaration
block with the saved one (App.tsx line 344). -/
def restoreCssText (_current saved : List (String × String)) :
    List (String × String) :=
  saved

/-- The nine temporary style overrides applied before capture
(App.tsx lines 308-316), in source order. -/
def captureOverrides (style0 : List (String × String)) : List (String × String) :=
  setStyleProp (setStyleProp (setStyleProp (setStyleProp (setStyleProp
    (setStyleProp (setStyleProp (setStyleProp (setStyleProp style0
      "transition" "none") "transform" "none") "position" "fixed")
      "top" "0") "left" "0") "width" "794px") "height" "1123px")
      "z-index" "9999") "background-color" "#ffffff"

/-- The outcome of `await domToPng(node, ...)` (App.tsx lines 324-329):
a data URL on success, or a thrown error. -/
inductive CaptureResult where
  | ok (dataUrl : String) : CaptureResult
  | err : CaptureResult

/-- The observable outcome of one `handleDownload` run: the element's final
inline style, whether the failure alert was shown, and the created download
link (filename and href), if any. -/
structure DownloadResult where
  nodeStyle : List (String × String)
  alerted : Bool
  link : Option (String × String)

/-- Embeds `handleDownload` (App.tsx lines 298-346) for a present page
element: save `originalStyle = node.style.cssText`, apply the capture
overrides, try the capture (the only step that can throw), on success create
the download link and on failure show the alert, and in the `finally` block
restore `node.style.cssText = originalStyle` on both paths. -/
def handleDownload (style0 : List (String × String)) (capture : CaptureResult)
    (now : DateUTC) : DownloadResult :=
  let originalStyle := style0
  let staged := captureOverrides style0
  let tryResult : Option (String × String) :=
    match capture with
    | CaptureResult.ok dataUrl =>
      some ("menu_" ++ exportTimestamp now ++ ".png", dataUrl)
    | CaptureResult.err => none
  { nodeStyle := restoreCssText staged originalStyle
    alerted := tryResult.isNone
    link := tryResult }

/-- Embeds the `MenuItem` record (App.tsx lines 20-24). -/
structure MenuItem where
  id : String
  name : String
  price : String
deriving DecidableEq

/-- Embeds `initialItems` (App.tsx lines 31-34). -/
def initialItems : List MenuItem :=
  [{ id := "item-1", name := "メニュー１", price := "980" },
   { id := "item-2", name := "メニュー２", price := "888" }]

/-- The two item-editing events of the form (App.tsx lines 239-254). -/
inductive AppEvent where
  | nameChange (id value : String) : AppEvent
  | priceChange (id value : String) : AppEvent

/-- Embeds `handleNameChange` (App.tsx lines 239-245) and
`handlePriceChange` (App.tsx lines 247-254): a name change stores the raw
value on the matching item, a price change stores `sanitizeDigits(value)`. -/
def applyEvent (items : List MenuItem) : AppEvent → List MenuItem
  | AppEvent.nameChange id value =>
    items.map (fun item => if item.id = id then { item with name := value } else item)
  | AppEvent.priceChange id value =>
    items.map (fun item =>
      if item.id = id then { item with price := sanitizeDigits value } else item)

/-- The item list reached from `initialItems` after a sequence of events. -/
def runEvents (events : List AppEvent) : List MenuItem :=
  events.foldl applyEvent initialItems

/-! Theorems. -/

/-- Claim C3: for every non-negative integer price `P`, the tax-inclusive
amount computed by `getTaxIncluded` equals `round (P * 1.1)` when `P > 0`,
and equals `0` when `P = 0`. -/
theorem getTaxIncluded_correct (P : ℕ) :
    (0 < P → getTaxIncluded P = round ((P : ℚ) * 1.1)) ∧
    (P = 0 → getTaxIncluded P = 0) := by
  constructor
  · intro hP
    have h11 : (1 : ℚ) + TAX_RATE = 1.1 := by norm_num [TAX_RATE]
    simp only [getTaxIncluded, if_pos hP, h11]
  · rintro rfl
    simp [getTaxIncluded]

/-- Witness for C3 at the concrete prices 5 and 0. -/
theorem getTaxIncluded_correct_witness :
    getTaxIncluded 5 = round ((5 : ℚ) * 1.1) ∧ getTaxIncluded 0 = 0 :=
  ⟨(getTaxIncluded_correct 5).1 (by decide), (getTaxIncluded_correct 0).2 rfl⟩

/-- Evaluating a digit list most-significant first by `n * 10 + d` agrees
with `Nat.ofDigits` on the reversed (least-significant-first) list. -/
theorem foldl_mul_add_eq_ofDigits (ds : List ℕ) (a : ℕ) :
    ds.foldl (fun n d => n * 10 + d) a =
      Nat.ofDigits 10 ds.reverse + a * 10 ^ ds.length := by
  induction ds generalizing a with
  | nil => simp
  | cons d ds ih =>
    simp only [List.foldl_cons, ih, List.reverse_cons, Nat.ofDigits_append,
      Nat.ofDigits_singleton, List.length_reverse, List.length_cons]
    ring

/-- `jsNumberOfDigits` computes the value of the digit list of its input. -/
theorem jsNumberOfDigits_eq_ofDigits (s : String) :
    jsNumberOfDigits s =
      Nat.ofDigits 10 ((s.data.map (fun c => c.toNat - 48)).reverse) := by
  unfold jsNumberOfDigits
  rw [← List.foldl_map (fun c : Char => c.toNat - 48) (fun n d => n * 10 + d),
    foldl_mul_add_eq_ofDigits]
  simp

/-- Claim C8: `sanitizeDigits` returns exactly the subsequence of the
decimal-digit characters of its input in their original order (an
order-preserving sublist, all of whose characters are digits, keeping every
digit occurrence), and the derived numeric price is the natural number
denoted by the sanitized string, with `0` for the empty sanitized string. -/
theorem sanitizeDigits_correct (s : String) :
    (sanitizeDigits s).data.Sublist s.data ∧
    (∀ c ∈ (sanitizeDigits s).data, c.isDigit) ∧
    (∀ c : Char, c.isDigit →
      (sanitizeDigits s).data.count c = s.data.count c) ∧
    priceValue s =
      Nat.ofDigits 10
        (((sanitizeDigits s).data.map (fun c => c.toNat - 48)).reverse) ∧
    ((sanitizeDigits s).data = [] → priceValue s = 0) := by
  refine ⟨?_, ?_, ?_, ?_, ?_⟩
  · exact List.filter_sublist s.data
  · intro c hc
    exact (List.mem_filter.mp hc).2
  · intro c hc
    exact List.count_filter hc
  · exact jsNumberOfDigits_eq_ofDigits (sanitizeDigits s)
  · intro hempty
    unfold priceValue jsNumberOfDigits
    rw [hempty]
    rfl

/-- Witness for C8 at the concrete input "a1b2". -/
theorem sanitizeDigits_correct_witness :
    (sanitizeDigits "a1b2").data.count '1' = ("a1b2" : String).data.count '1' ∧
    priceValue "a1b2" =
      Nat.ofDigits 10
        (((sanitizeDigits "a1b2").data.map (fun c => c.toNat - 48)).reverse) :=
  ⟨(sanitizeDigits_correct "a1b2").2.2.1 '1' (by decide),
    (sanitizeDigits_correct "a1b2").2.2.2.1⟩

/-- Claim C2: the stored page scale equals
`min 1 (min (W / 794) (H / 1123))` whenever that value is a finite positive
number and is `1` otherwise; in particular the given concrete available
sizes and non-finite inputs, and it never exceeds `1`. -/
theorem updateScale_correct :
    (∀ W H : ℚ, 0 < min 1 (min (W / 794) (H / 1123)) →
      updateScaleResult (JSNum.num W) (JSNum.num H) =
        min 1 (min (W / 794) (H / 1123))) ∧
    (∀ W H : ℚ, ¬ 0 < min 1 (min (W / 794) (H / 1123)) →
      updateScaleResult (JSNum.num W) (JSNum.num H) = 1) ∧
    updateScaleResult (JSNum.num 800) (JSNum.num 1200) = 1 ∧
    updateScaleResult (JSNum.num 397) (JSNum.num 1123) = 1 / 2 ∧
    updateScaleResult (JSNum.num 0) (JSNum.num 0) = 1 ∧
    (∀ x : JSNum, updateScaleResult JSNum.nan x = 1) ∧
    (∀ x : JSNum, updateScaleResult x JSNum.nan = 1) ∧
    (∀ x y : JSNum, updateScaleResult x y ≤ 1) := by
  have hnum : ∀ W H : ℚ,
      updateScaleResult (JSNum.num W) (JSNum.num H) =
        if 0 < min 1 (min (W / 794) (H / 1123))
        then min 1 (min (W / 794) (H / 1123)) else 1 := by
    intro W H
    simp [updateScaleResult, nextScale, jsMin, jsDivC, PAGE_WIDTH, PAGE_HEIGHT]
  refine ⟨?_, ?_, ?_, ?_, ?_, ?_, ?_, ?_⟩
  · intro W H hpos
    rw [hnum, if_pos hpos]
  · intro W H hpos
    rw [hnum, if_neg hpos]
  · rw [hnum]
    norm_num
  · rw [hnum]
    norm_num
  · rw [hnum]
    norm_num
  · intro x
    cases x <;> rfl
  · intro x
    cases x <;> rfl
  · intro x y
    cases x with
    | nan => cases y <;> simp [updateScaleResult, nextScale, jsMin, jsDivC]
    | num W =>
      cases y with
      | nan => simp [updateScaleResult, nextScale, jsMin, jsDivC]
      | num H =>
        rw [hnum]
        split
        · exact min_le_left _ _
        · exact le_refl 1

/-- Witness for C2 at the concrete available sizes (794, 1123) and (0, 0). -/
theorem updateScale_correct_witness :
    updateScaleResult (JSNum.num 794) (JSNum.num 1123) =
      min 1 (min ((794 : ℚ) / 794) ((1123 : ℚ) / 1123)) ∧
    updateScaleResult (JSNum.num 0) (JSNum.num 0) = 1 :=
  ⟨updateScale_correct.1 794 1123 (by simp),
    updateScale_correct.2.1 0 0 (by simp)⟩

/-- A committed color is never an element of the filtered tail. -/
theorem not_mem_filter_ne (c : String) (l : List String) :
    c ∉ l.filter (fun color => color ≠ c) := by
  intro hmem
  have := (List.mem_filter.mp hmem).2
  simp at this

/-- Folding distinct commits over the empty history yields the reversed
commit order truncated to the cap. -/
theorem foldl_commit_distinct (cs : List String) (h : cs.Nodup) :
    cs.foldl (fun acc c => commitColorToHistory c acc) [] =
      cs.reverse.take 8 := by
  induction cs using List.reverseRecOn with
  | nil => rfl
  | append_singleton xs x ih =>
    have hx : x ∉ xs := by
      have := List.nodup_append.mp h
      intro hmem
      exact this.2.2 hmem (List.mem_singleton.mpr rfl)
    have hxs : xs.Nodup := (List.nodup_append.mp h).1
    rw [List.foldl_append, List.foldl_cons, List.foldl_nil, ih hxs]
    unfold commitColorToHistory MAX_COLOR_HISTORY
    have hfilter : (xs.reverse.take 8).filter (fun color => color ≠ x) =
        xs.reverse.take 8 := by
      refine List.filter_eq_self.mpr ?_
      intro a ha
      have hax : a ∈ xs := List.mem_reverse.mp ((xs.reverse.take_sublist 8).mem ha)
      simp only [ne_eq, decide_eq_true_eq]
      intro rfl_eq
      exact hx (rfl_eq ▸ hax)
    rw [hfilter, List.reverse_append, List.reverse_singleton,
      List.singleton_append, List.take_succ_cons, List.take_take]
    rfl

/-- Claim C4: committing an already-present color moves it to the front
without duplicating it, and nine commits of pairwise-distinct colors onto
the empty history leave exactly eight entries with the first-committed color
evicted. -/
theorem commitColorToHistory_correct :
    (∀ (prev : List String) (c : String), c ∈ prev →
      (commitColorToHistory c prev).head? = some c ∧
      (commitColorToHistory c prev).count c = 1) ∧
    (∀ (c : String) (cs : List String), (c :: cs).Nodup → cs.length = 8 →
      ((c :: cs).foldl (fun acc x => commitColorToHistory x acc) []).length = 8 ∧
      c ∉ (c :: cs).foldl (fun acc x => commitColorToHistory x acc) []) := by
  constructor
  · intro prev c _
    have hshape : commitColorToHistory c prev =
        c :: (prev.filter (fun color => color ≠ c)).take 7 := by
      unfold commitColorToHistory MAX_COLOR_HISTORY
      rw [List.take_succ_cons]
    constructor
    · rw [hshape]
      rfl
    · rw [hshape, List.count_cons_self]
      have hnot : c ∉ (prev.filter (fun color => color ≠ c)).take 7 :=
        fun hmem =>
          not_mem_filter_ne c prev
            (((prev.filter (fun color => color ≠ c)).take_sublist 7).mem hmem)
      rw [List.count_eq_zero.mpr hnot]
  · intro c cs hnd hlen
    have hres := foldl_commit_distinct (c :: cs) hnd
    have hrev : (c :: cs).reverse.take 8 = cs.reverse := by
      rw [List.reverse_cons, List.take_left']
      rw [List.length_reverse, hlen]
    rw [hres, hrev]
    refine ⟨by rw [List.length_reverse, hlen], ?_⟩
    intro hmem
    exact (List.nodup_cons.mp hnd).1 (List.mem_reverse.mp hmem)

/-- Witness for C4: committing the present color "b", and nine distinct
commits starting from the empty history. -/
theorem commitColorToHistory_correct_witness :
    ((commitColorToHistory "b" ["a", "b"]).head? = some "b" ∧
      (commitColorToHistory "b" ["a", "b"]).count "b" = 1) ∧
    ((["0", "1", "2", "3", "4", "5", "6", "7", "8"].foldl
        (fun acc x => commitColorToHistory x acc) []).length = 8 ∧
      "0" ∉ ["0", "1", "2", "3", "4", "5", "6", "7", "8"].foldl
        (fun acc x => commitColorToHistory x acc) []) :=
  ⟨commitColorToHistory_correct.1 ["a", "b"] "b" (by decide),
    commitColorToHistory_correct.2 "0" ["1", "2", "3", "4", "5", "6", "7", "8"]
      (by decide) (by decide)⟩

/-- Counterexample to claim C5 as stated: the startup load of the stored
value `["a","a"]` is a reachable color-history value (zero commits) that
contains two equal colors. -/
theorem colorHistory_claim_counterexample :
    loadColorHistory
        (StoredState.parsed (Json.arr [Json.str "a", Json.str "a"])) =
      ["a", "a"] ∧
    ¬ (["a", "a"] : List String).Nodup := by
  exact ⟨rfl, by decide⟩

/-- Every commit result respects the cap. -/
theorem commit_length_le (c : String) (l : List String) :
    (commitColorToHistory c l).length ≤ 8 := by
  unfold commitColorToHistory MAX_COLOR_HISTORY
  rw [List.length_take]
  exact min_le_left _ _

/-- Every commit preserves freedom from duplicates. -/
theorem commit_nodup (c : String) (l : List String) (h : l.Nodup) :
    (commitColorToHistory c l).Nodup := by
  unfold commitColorToHistory MAX_COLOR_HISTORY
  refine List.Nodup.sublist (List.take_sublist _ _) ?_
  exact List.nodup_cons.mpr ⟨not_mem_filter_ne c l, h.filter _⟩

/-- Claim C5, amended: commits always respect the cap and preserve freedom
from duplicates, so every history reachable from a startup load whose result
is within the cap and duplicate-free stays within the cap and
duplicate-free; the load itself does not enforce this for arbitrary stored
content. -/
theorem colorHistory_invariant_amended :
    (∀ (c : String) (l : List String), (commitColorToHistory c l).length ≤ 8) ∧
    (∀ (c : String) (l : List String), l.Nodup → (commitColorToHistory c l).Nodup) ∧
    (∀ (s : StoredState) (l : List String),
      (loadColorHistory s).length ≤ 8 → (loadColorHistory s).Nodup →
      ReachableHistory (loadColorHistory s) l → l.length ≤ 8 ∧ l.Nodup) := by
  refine ⟨commit_length_le, commit_nodup, ?_⟩
  intro s l hlen hnd hreach
  induction hreach with
  | refl => exact ⟨hlen, hnd⟩
  | commit c m _ ihm => exact ⟨commit_length_le c m, commit_nodup c m ihm.2⟩

/-- Witness for the amended C5 at the absent-store load. -/
theorem colorHistory_invariant_amended_witness :
    (loadColorHistory StoredState.absent).length ≤ 8 ∧
    (loadColorHistory StoredState.absent).Nodup :=
  colorHistory_invariant_amended.2.2 StoredState.absent
    (loadColorHistory StoredState.absent) (by decide) (by decide)
    ReachableHistory.refl

/-- Counterexample to claim C6 as stated: the malformed stored value `[1]`
(a nonempty array with no string element) makes `loadColorHistory` return
the empty list, not the one-element default list. -/
theorem loadColorHistory_claim_counterexample :
    loadColorHistory (StoredState.parsed (Json.arr [Json.num 1])) = [] ∧
    loadColorHistory (StoredState.parsed (Json.arr [Json.num 1])) ≠
      [DEFAULT_SHADOW_COLOR] := by
  exact ⟨rfl, by decide⟩

/-- Claim C6, amended: `loadColorHistory` never throws (it is total by
construction) and returns the one-element default list when the key is
absent or empty, when parsing throws, when the parsed value is not an array,
and when it is an empty array; for a nonempty array it returns the array's
string elements, which can be the empty list when no element is a string. -/
theorem loadColorHistory_amended :
    loadColorHistory StoredState.absent = [DEFAULT_SHADOW_COLOR] ∧
    loadColorHistory StoredState.unparseable = [DEFAULT_SHADOW_COLOR] ∧
    (∀ v : Json, (∀ elems : List Json, v ≠ Json.arr elems) →
      loadColorHistory (StoredState.parsed v) = [DEFAULT_SHADOW_COLOR]) ∧
    loadColorHistory (StoredState.parsed (Json.arr [])) =
      [DEFAULT_SHADOW_COLOR] ∧
    (∀ elems : List Json, elems ≠ [] →
      loadColorHistory (StoredState.parsed (Json.arr elems)) =
        jsonStringElems elems) := by
  refine ⟨rfl, rfl, ?_, rfl, ?_⟩
  · intro v hv
    cases v with
    | arr elems => exact absurd rfl (hv elems)
    | null => rfl
    | bool b => rfl
    | num n => rfl
    | str s => rfl
    | obj fields => rfl
  · intro elems h
    show (if elems.length ≠ 0 then jsonStringElems elems
        else [DEFAULT_SHADOW_COLOR]) = jsonStringElems elems
    exact if_pos (fun hlen => h (List.length_eq_zero.mp hlen))

/-- Witness for the amended C6 at a parsed `null` and a nonempty string
array. -/
theorem loadColorHistory_amended_witness :
    loadColorHistory (StoredState.parsed Json.null) = [DEFAULT_SHADOW_COLOR] ∧
    loadColorHistory (StoredState.parsed (Json.arr [Json.str "x"])) =
      jsonStringElems [Json.str "x"] :=
  ⟨loadColorHistory_amended.2.2.1 Json.null (fun _ h => Json.noConfusion h),
    loadColorHistory_amended.2.2.2.2 [Json.str "x"]
      (fun h => List.noConfusion h)⟩

/-- Claim C7: whether the capture succeeds or throws, `handleDownload`
restores the element's inline style to its exact pre-capture value in the
final cleanup step, and on the failure path it shows the alert and creates
no download link. -/
theorem handleDownload_cleanup_correct
    (style0 : List (String × String)) (capture : CaptureResult)
    (now : DateUTC) :
    (handleDownload style0 capture now).nodeStyle = style0 ∧
    (capture = CaptureResult.err →
      (handleDownload style0 capture now).alerted = true ∧
      (handleDownload style0 capture now).link = none) := by
  constructor
  · cases capture <;> rfl
  · rintro rfl
    exact ⟨rfl, rfl⟩

/-- Witness for C7 on a concrete style block with a failing capture. -/
theorem handleDownload_cleanup_correct_witness :
    (handleDownload [("color", "red")] CaptureResult.err
        ⟨2026, 10, 11, 0, 0, 0, 0⟩).nodeStyle = [("color", "red")] ∧
    (handleDownload [("color", "red")] CaptureResult.err
        ⟨2026, 10, 11, 0, 0, 0, 0⟩).alerted = true ∧
    (handleDownload [("color", "red")] CaptureResult.err
        ⟨2026, 10, 11, 0, 0, 0, 0⟩).link = none :=
  ⟨(handleDownload_cleanup_correct [("color", "red")] CaptureResult.err
      ⟨2026, 10, 11, 0, 0, 0, 0⟩).1,
    (handleDownload_cleanup_correct [("color", "red")] CaptureResult.err
      ⟨2026, 10, 11, 0, 0, 0, 0⟩).2 rfl⟩

/-- `applyEvent` preserves digit-only price strings. -/
theorem applyEvent_digits (items : List MenuItem) (e : AppEvent)
    (h : ∀ it ∈ items, ∀ c ∈ it.price.data, c.isDigit) :
    ∀ it ∈ applyEvent items e, ∀ c ∈ it.price.data, c.isDigit := by
  cases e with
  | nameChange id value =>
    intro it hit
    obtain ⟨a, ha, rfl⟩ := List.mem_map.mp hit
    split
    · exact h a ha
    · exact h a ha
  | priceChange id value =>
    intro it hit
    obtain ⟨a, ha, rfl⟩ := List.mem_map.mp hit
    split
    · intro c hc
      exact (List.mem_filter.mp hc).2
    · exact h a ha

/-- The invariant holds after any event sequence from any invariant-holding
start state. -/
theorem foldl_events_digits (events : List AppEvent) :
    ∀ (init : List MenuItem),
      (∀ it ∈ init, ∀ c ∈ it.price.data, c.isDigit) →
      ∀ it ∈ events.foldl applyEvent init, ∀ c ∈ it.price.data, c.isDigit := by
  induction events with
  | nil => exact fun init h => h
  | cons e es ih =>
    intro init h
    exact ih (applyEvent init e) (applyEvent_digits init e h)

/-- Claim C10: in every state reachable from the initial two items by
name-change and price-change events, every item's stored price string
consists only of decimal-digit characters, and the derived numeric price is
a non-negative integer. -/
theorem price_digits_invariant (events : List AppEvent) :
    ∀ it ∈ runEvents events,
      (∀ c ∈ it.price.data, c.isDigit) ∧ 0 ≤ (priceValue it.price : ℤ) := by
  intro it hit
  refine ⟨foldl_events_digits events initialItems (by decide) it hit, ?_⟩
  exact Int.natCast_nonneg _

/-- Witness for C10 at the empty event sequence and the first initial
item. -/
theorem price_digits_invariant_witness :
    (∀ c ∈ ({ id := "item-1", name := "メニュー１", price := "980" } :
        MenuItem).price.data, c.isDigit) ∧
    0 ≤ (priceValue ({ id := "item-1", name := "メニュー１", price := "980" } :
        MenuItem).price : ℤ) :=
  price_digits_invariant []
    { id := "item-1", name := "メニュー１", price := "980" } (by decide)

/-- A decimal digit character renders a digit. -/
theorem digitChar_isDigit (n : ℕ) (h : n < 10) : (Nat.digitChar n).isDigit := by
  interval_cases n <;> decide

/-- A decimal digit character is not one of the stripped separators. -/
theorem digitChar_keep (n : ℕ) (h : n < 10) :
    (!(Nat.digitChar n == '-' || Nat.digitChar n == ':' ||
        Nat.digitChar n == 'T')) = true := by
  interval_cases n <;> decide

/-- Stripping keeps a non-separator head character. -/
theorem strip_cons_keep (c : Char) (l : List Char)
    (h : (!(c == '-' || c == ':' || c == 'T')) = true) :
    stripSeparators (c :: l) = c :: stripSeparators l := by
  unfold stripSeparators
  exact List.filter_cons_of_pos h

/-- Stripping drops a `-` head. -/
theorem strip_cons_dash (l : List Char) :
    stripSeparators ('-' :: l) = stripSeparators l := rfl

/-- Stripping drops a `:` head. -/
theorem strip_cons_colon (l : List Char) :
    stripSeparators (':' :: l) = stripSeparators l := rfl

/-- Stripping drops a `T` head. -/
theorem strip_cons_t (l : List Char) :
    stripSeparators ('T' :: l) = stripSeparators l := rfl

/-- Stripping keeps a two-digit field. -/
theorem strip_pad2 (n : ℕ) (h : n < 100) (l : List Char) :
    stripSeparators (pad2 n ++ l) = pad2 n ++ stripSeparators l := by
  have h1 : n / 10 < 10 := by omega
  have h2 : n % 10 < 10 := by omega
  show stripSeparators (Nat.digitChar (n / 10) :: Nat.digitChar (n % 10) :: l) = _
  rw [strip_cons_keep _ _ (digitChar_keep _ h1),
    strip_cons_keep _ _ (digitChar_keep _ h2)]
  rfl

/-- Stripping keeps the three-digit millisecond field. -/
theorem strip_pad3 (n : ℕ) (h : n < 1000) (l : List Char) :
    stripSeparators (pad3 n ++ l) = pad3 n ++ stripSeparators l := by
  have h1 : n / 100 < 10 := by omega
  have h2 : n / 10 % 10 < 10 := by omega
  have h3 : n % 10 < 10 := by omega
  show stripSeparators (Nat.digitChar (n / 100) :: Nat.digitChar (n / 10 % 10) ::
    Nat.digitChar (n % 10) :: l) = _
  rw [strip_cons_keep _ _ (digitChar_keep _ h1),
    strip_cons_keep _ _ (digitChar_keep _ h2),
    strip_cons_keep _ _ (digitChar_keep _ h3)]
  rfl

/-- Stripping keeps the four-digit year field. -/
theorem strip_pad4 (n : ℕ) (h : n < 10000) (l : List Char) :
    stripSeparators (pad4 n ++ l) = pad4 n ++ stripSeparators l := by
  have h1 : n / 1000 < 10 := by omega
  have h2 : n / 100 % 10 < 10 := by omega
  have h3 : n / 10 % 10 < 10 := by omega
  have h4 : n % 10 < 10 := by omega
  show stripSeparators (Nat.digitChar (n / 1000) :: Nat.digitChar (n / 100 % 10) ::
    Nat.digitChar (n / 10 % 10) :: Nat.digitChar (n % 10) :: l) = _
  rw [strip_cons_keep _ _ (digitChar_keep _ h1),
    strip_cons_keep _ _ (digitChar_keep _ h2),
    strip_cons_keep _ _ (digitChar_keep _ h3),
    strip_cons_keep _ _ (digitChar_keep _ h4)]
  rfl

/-- Stripping the separators from the ISO string of an in-range UTC instant:
the separators `-`, `:` and `T` disappear and every fixed-width field
survives, with the first twelve characters being year, month, day, hour and
minute. -/
theorem strip_iso (d : DateUTC) (hy : d.year < 10000) (hmo : d.month < 100)
    (hda : d.day < 100) (hh : d.hour < 100) (hmi : d.minute < 100)
    (hs : d.second < 100) (hms : d.ms < 1000) :
    stripSeparators (toISOStringChars d) =
      (pad4 d.year ++ pad2 d.month ++ pad2 d.day ++ pad2 d.hour ++
          pad2 d.minute) ++
        (pad2 d.second ++ '.' :: (pad3 d.ms ++ ['Z'])) := by
  unfold toISOStringChars
  simp only [List.append_assoc, List.cons_append]
  rw [strip_pad4 _ hy, strip_cons_dash, strip_pad2 _ hmo, strip_cons_dash,
    strip_pad2 _ hda, strip_cons_t, strip_pad2 _ hh, strip_cons_colon,
    strip_pad2 _ hmi, strip_cons_colon, strip_pad2 _ hs,
    strip_cons_keep '.' _ (by decide), strip_pad3 _ hms]
  simp [List.append_assoc, stripSeparators]

/-- Claim C9: on every successful export from an in-range UTC instant, the
downloaded file is named `menu_<T>.png` where `T` is the first twelve
characters of the ISO timestamp with `-`, `:` and `T` stripped, so `T` is
the twelve digits of year, month, day, hour and minute. -/
theorem exportFilename_correct (d : DateUTC)
    (style0 : List (String × String)) (url : String)
    (hy : d.year < 10000) (hmo : d.month < 100) (hda : d.day < 100)
    (hh : d.hour < 100) (hmi : d.minute < 100) (hs : d.second < 100)
    (hms : d.ms < 1000) :
    (handleDownload style0 (CaptureResult.ok url) d).link =
      some ("menu_" ++ exportTimestamp d ++ ".png", url) ∧
    (exportTimestamp d).data =
      pad4 d.year ++ pad2 d.month ++ pad2 d.day ++ pad2 d.hour ++
        pad2 d.minute ∧
    (exportTimestamp d).length = 12 ∧
    ∀ c ∈ (exportTimestamp d).data, c.isDigit := by
  have hdata : (exportTimestamp d).data =
      pad4 d.year ++ pad2 d.month ++ pad2 d.day ++ pad2 d.hour ++
        pad2 d.minute := by
    show (stripSeparators (toISOStringChars d)).take 12 = _
    rw [strip_iso d hy hmo hda hh hmi hs hms]
    exact List.take_left' (by simp [pad4, pad2])
  refine ⟨rfl, hdata, ?_, ?_⟩
  · show (exportTimestamp d).data.length = 12
    rw [hdata]
    simp [pad4, pad2]
  · intro c hc
    rw [hdata] at hc
    simp only [pad4, pad2, List.mem_append, List.mem_cons,
      List.not_mem_nil, or_false] at hc
    rcases hc with ((((rfl | rfl | rfl | rfl) | rfl | rfl) | rfl | rfl) |
      rfl | rfl) | rfl | rfl <;>
      apply digitChar_isDigit <;> omega

/-- Witness for C9 at a concrete UTC instant. -/
theorem exportFilename_correct_witness :
    (handleDownload [] (CaptureResult.ok "u")
        ⟨2026, 10, 11, 3, 7, 59, 123⟩).link =
      some ("menu_" ++ exportTimestamp ⟨2026, 10, 11, 3, 7, 59, 123⟩ ++
        ".png", "u") ∧
    (exportTimestamp ⟨2026, 10, 11, 3, 7, 59, 123⟩).length = 12 :=
  ⟨(exportFilename_correct ⟨2026, 10, 11, 3, 7, 59, 123⟩ [] "u"
      (by decide) (by decide) (by decide) (by decide) (by decide)
      (by decide) (by decide)).1,
    (exportFilename_correct ⟨2026, 10, 11, 3, 7, 59, 123⟩ [] "u"
      (by decide) (by decide) (by decide) (by decide) (by decide)
      (by decide) (by decide)).2.2.1⟩

/-- The floor midpoint of a nonempty integer range lies in the range. -/
theorem fdiv2_bounds (low high : ℤ) (h : low ≤ high) :
    low ≤ Int.fdiv (low + high) 2 ∧ Int.fdiv (low + high) 2 ≤ high := by
  have hid := Int.fdiv_add_fmod (low + high) 2
  have hm0 : 0 ≤ Int.fmod (low + high) 2 := Int.fmod_nonneg' _ (by norm_num)
  have hm2 : Int.fmod (low + high) 2 < 2 := Int.fmod_lt_of_pos _ (by norm_num)
  omega

/-- Postcondition of the binary search once the bounds have crossed: either
`best` is a recorded fit and nothing above it fits, or nothing in the whole
range fits and `best` is still the initial minimum. -/
theorem fitLoop_post_of_crossed (h : ℤ → ℤ) (H mn mx low high best : ℤ)
    (hlt : high < low)
    (hI3 : ∀ s : ℤ, high < s → s ≤ mx → H < h s)
    (hinv : (h best ≤ H ∧ best + 1 = low ∧ mn ≤ best ∧ best ≤ mx) ∨
      (best = mn ∧ low = mn)) :
    (h best ≤ H ∧ mn ≤ best ∧ best ≤ mx ∧
        ∀ s : ℤ, best < s → s ≤ mx → H < h s) ∨
      (best = mn ∧ ∀ s : ℤ, mn ≤ s → s ≤ mx → H < h s) := by
  rcases hinv with ⟨hb, hbl, hmn, hmx⟩ | ⟨hb, hl⟩
  · exact Or.inl ⟨hb, hmn, hmx, fun s hs hsmx => hI3 s (by omega) hsmx⟩
  · exact Or.inr ⟨hb, fun s hmns hsmx => hI3 s (by omega) hsmx⟩

/-- Loop invariant of the binary search in `useAutoFitText.fit`: with enough
fuel for the remaining range, a monotone measurement, everything above
`high` too tall, and `best` either a recorded fit just below `low` or the
untouched initial minimum, the loop ends in one of the two terminal
situations. -/
theorem fitLoop_spec (h : ℤ → ℤ) (H mn mx : ℤ)
    (hmono : ∀ s t : ℤ, s ≤ t → h s ≤ h t) :
    ∀ (fuel : ℕ) (low high best : ℤ),
      (high + 1 - low).toNat ≤ fuel →
      mn ≤ low → high ≤ mx →
      (∀ s : ℤ, high < s → s ≤ mx → H < h s) →
      ((h best ≤ H ∧ best + 1 = low ∧ mn ≤ best ∧ best ≤ mx) ∨
        (best = mn ∧ low = mn)) →
      ((h (fitLoop h H fuel low high best) ≤ H ∧
          mn ≤ fitLoop h H fuel low high best ∧
          fitLoop h H fuel low high best ≤ mx ∧
          ∀ s : ℤ, fitLoop h H fuel low high best < s → s ≤ mx → H < h s) ∨
        (fitLoop h H fuel low high best = mn ∧
          ∀ s : ℤ, mn ≤ s → s ≤ mx → H < h s)) := by
  intro fuel
  induction fuel with
  | zero =>
    intro low high best hfuel hlow hhigh hI3 hinv
    have hlt : high < low := by omega
    exact fitLoop_post_of_crossed h H mn mx low high best hlt hI3 hinv
  | succ fuel ih =>
    intro low high best hfuel hlow hhigh hI3 hinv
    by_cases hcmp : low ≤ high
    · have hmid := fdiv2_bounds low high hcmp
      by_cases hfit : h (Int.fdiv (low + high) 2) ≤ H
      · have hstep : fitLoop h H (fuel + 1) low high best =
            fitLoop h H fuel (Int.fdiv (low + high) 2 + 1) high
              (Int.fdiv (low + high) 2) := by
          simp only [fitLoop, if_pos hcmp, if_pos hfit]
        rw [hstep]
        exact ih (Int.fdiv (low + high) 2 + 1) high (Int.fdiv (low + high) 2)
          (by omega) (by omega) hhigh hI3
          (Or.inl ⟨hfit, rfl, by omega, by omega⟩)
      · have hstep : fitLoop h H (fuel + 1) low high best =
            fitLoop h H fuel low (Int.fdiv (low + high) 2 - 1) best := by
          simp only [fitLoop, if_pos hcmp, if_neg hfit]
        rw [hstep]
        have hI3' : ∀ s : ℤ, Int.fdiv (low + high) 2 - 1 < s → s ≤ mx →
            H < h s := by
          intro s hs hsmx
          have : h (Int.fdiv (low + high) 2) ≤ h s := hmono _ _ (by omega)
          omega
        refine ih low (Int.fdiv (low + high) 2 - 1) best (by omega) hlow
          (by omega) hI3' ?_
        rcases hinv with hcase | hcase
        · exact Or.inl hcase
        · exact Or.inr hcase
    · have hstep : fitLoop h H (fuel + 1) low high best = best := by
        simp only [fitLoop, if_neg hcmp]
      rw [hstep]
      exact fitLoop_post_of_crossed h H mn mx low high best (by omega) hI3 hinv

/-- Claim C1: for any available height `H` and any measurement `h` that is
monotonically non-decreasing in the font size, the binary search over the
integer range `[mn, mx]` returns a size `S` with `h S ≤ H` and either
`S = mx` or `h (S + 1) > H` whenever some size in the range fits; when no
size in the range fits, the applied size defaults to `mn`. -/
theorem fit_correct (h : ℤ → ℤ) (H mn mx : ℤ)
    (hmono : ∀ s t : ℤ, s ≤ t → h s ≤ h t) :
    ((∃ s : ℤ, mn ≤ s ∧ s ≤ mx ∧ h s ≤ H) →
      h (fit h H mn mx) ≤ H ∧
        (fit h H mn mx = mx ∨ H < h (fit h H mn mx + 1))) ∧
    ((∀ s : ℤ, mn ≤ s → s ≤ mx → H < h s) → fit h H mn mx = mn) := by
  have main := fitLoop_spec h H mn mx hmono (mx + 1 - mn).toNat mn mx mn
    le_rfl le_rfl le_rfl (fun s h1 h2 => absurd h2 (not_le.mpr h1))
    (Or.inr ⟨rfl, rfl⟩)
  unfold fit
  constructor
  · rintro ⟨s, hs1, hs2, hs3⟩
    rcases main with ⟨hfit, hmnle, hlemx, habove⟩ | ⟨_, hnone⟩
    · refine ⟨hfit, ?_⟩
      by_cases heq : fitLoop h H (mx + 1 - mn).toNat mn mx mn = mx
      · exact Or.inl heq
      · exact Or.inr (habove _ (by omega) (by omega))
    · exact absurd hs3 (not_le.mpr (hnone s hs1 hs2))
  · intro hnone
    rcases main with ⟨hfit, hmnle, hlemx, _⟩ | ⟨heq, _⟩
    · exact absurd hfit (not_le.mpr (hnone _ hmnle hlemx))
    · exact heq

/-- Witness for C1: the identity measurement with height 100 on the source
range [48, 220] (a fit exists), and a constant too-tall measurement on the
same range (nothing fits, the minimum is applied). -/
theorem fit_correct_witness :
    (fit (fun s : ℤ => s) 100 48 220 ≤ 100 ∧
      (fit (fun s : ℤ => s) 100 48 220 = 220 ∨
        100 < fit (fun s : ℤ => s) 100 48 220 + 1)) ∧
    fit (fun _ : ℤ => 1000) 100 48 220 = 48 := by
  constructor
  · exact (fit_correct (fun s : ℤ => s) 100 48 220 (fun s t hst => hst)).1
      ⟨48, by decide, by decide, by decide⟩
  · exact (fit_correct (fun _ : ℤ => 1000) 100 48 220
      (fun s t _ => le_rfl)).2 (fun s _ _ => by decide)

end MenuGen
